import Mathlib

/-!
Verification of the evaluation pipeline in
`evaluate_results_of_NewCodeBench.py`: the value-equivalence relation
`results_equivalent`, the task-shape classifier `is_class_based_task`, the
two synthesized test drivers emitted by `build_function_test_harness_flexible`
and `build_class_test_harness`, and the sandbox runner `run_file_and_capture`.

Values flowing through the pipeline are JSON-derived Python values plus the
values candidate code may return.  They are embedded as the inductive `PyVal`:
Python integers, booleans and finite floats are collapsed into a single exact
rational constructor `num` (Python's `==`, `abs` and `<` compare them
numerically across kinds; `True == 1` and `3 == 3.0` hold), while `nan`
represents `float('nan')`, which is equal to nothing, itself included.
Object identity is not modelled: comparisons are between structurally built,
distinct objects, exactly the situation of a candidate result versus an
embedded expected literal.
-/

inductive PyVal : Type where
  | pyNone : PyVal
  | num : ℚ → PyVal
  | nan : PyVal
  | str : String → PyVal
  | list : List PyVal → PyVal
  | tuple : List PyVal → PyVal
  | dict : List (String × PyVal) → PyVal
  | set : List PyVal → PyVal

mutual

/-- Structural (term-level) equality test on `PyVal`, written out so that it
kernel-evaluates.  On hashable Python values (the only values a `set` can
contain) Python's `==` agrees with structural equality except around `nan`;
the `nan` caveat is handled separately by `nanFreeB` at the use site. -/
def hashEqB : PyVal → PyVal → Bool
  | .pyNone, .pyNone => true
  | .num a, .num b => decide (a = b)
  | .nan, .nan => true
  | .str a, .str b => decide (a = b)
  | .list xs, .list ys => hashEqL xs ys
  | .tuple xs, .tuple ys => hashEqL xs ys
  | .dict d1, .dict d2 => hashEqD d1 d2
  | .set xs, .set ys => hashEqL xs ys
  | _, _ => false

/-- Elementwise structural equality of value lists. -/
def hashEqL : List PyVal → List PyVal → Bool
  | [], [] => true
  | x :: xs, y :: ys => hashEqB x y && hashEqL xs ys
  | _, _ => false

/-- Entrywise structural equality of dict entry lists. -/
def hashEqD : List (String × PyVal) → List (String × PyVal) → Bool
  | [], [] => true
  | (k1, v1) :: r1, (k2, v2) :: r2 => decide (k1 = k2) && hashEqB v1 v2 && hashEqD r1 r2
  | _, _ => false

end

mutual

/-- True when the value contains no `nan` anywhere.  Python's `float('nan')`
is `==`-equal to nothing, not even to another `nan` object. -/
def nanFreeB : PyVal → Bool
  | .nan => false
  | .list xs => nanFreeL xs
  | .tuple xs => nanFreeL xs
  | .set xs => nanFreeL xs
  | .dict d => nanFreeD d
  | _ => true

/-- `nanFreeB` over a list of values. -/
def nanFreeL : List PyVal → Bool
  | [] => true
  | x :: xs => nanFreeB x && nanFreeL xs

/-- `nanFreeB` over the values of dict entries. -/
def nanFreeD : List (String × PyVal) → Bool
  | [] => true
  | (_, v) :: r => nanFreeB v && nanFreeD r

end

/-- Python `set == set`: mutual membership, where an element matches iff the
two are `==`-equal.  Set elements are hashable, and on hashable values
Python's `==` is structural equality on `nan`-free values (two distinct
`nan` objects are never `==`-equal, also inside tuples). -/
def setEqB (s t : List PyVal) : Bool :=
  s.all (fun x => nanFreeB x && t.any (fun y => hashEqB x y)) &&
  t.all (fun y => nanFreeB y && s.any (fun x => hashEqB y x))

/-- Key lookup in the association-list embedding of a Python dict
(`d[k]` / `k in d`).  Python dict keys are unique, so the first match is the
binding. -/
def lookupStr (k : String) : List (String × PyVal) → Option PyVal
  | [] => none
  | (k2, v) :: rest => if k = k2 then some v else lookupStr k rest

mutual

/-- Python `==` on embedded values (the `result == expected` test of
`results_equivalent`, line 48 of `evaluate_results_of_NewCodeBench.py`, and
the element comparison used by `list(result) == list(expected)` on line 57).
Numbers compare numerically across int/float kinds, `nan` is equal to
nothing, lists and tuples are different types and never `==`-equal to each
other, dicts compare as key-value collections independent of entry order,
sets compare extensionally. -/
def pyEq : PyVal → PyVal → Bool
  | .pyNone, .pyNone => true
  | .num a, .num b => decide (a = b)
  | .str a, .str b => decide (a = b)
  | .list xs, .list ys => pyEqL xs ys
  | .tuple xs, .tuple ys => pyEqL xs ys
  | .dict d1, .dict d2 => decide (d1.length = d2.length) && pyEqD d1 d2
  | .set xs, .set ys => setEqB xs ys
  | _, _ => false

/-- Python `==` on lists: equal lengths and elementwise `==`. -/
def pyEqL : List PyVal → List PyVal → Bool
  | [], [] => true
  | x :: xs, y :: ys => pyEq x y && pyEqL xs ys
  | _, _ => false

/-- The entry traversal of Python dict `==`: every key of the first dict is
bound in the second to a `==`-equal value.  Combined with the length check
in `pyEq` this is Python's dict equality. -/
def pyEqD : List (String × PyVal) → List (String × PyVal) → Bool
  | [], _ => true
  | (k, v) :: rest, d2 =>
    (match lookupStr k d2 with
     | some w => pyEq v w
     | none => false) && pyEqD rest d2

end

/-- The `set(result.keys()) != set(expected.keys())` test on line 61 of the
source: equality of the two key sets, as mutual membership of the key
lists. -/
def keySetEqB (d1 d2 : List (String × PyVal)) : Bool :=
  d1.all (fun kv => d2.any (fun kv2 => decide (kv.1 = kv2.1))) &&
  d2.all (fun kv2 => d1.any (fun kv => decide (kv2.1 = kv.1)))

/-- The numeric tolerance `1e-9` of the source, as an exact rational.
`mkRat` is used because it evaluates in the kernel. -/
def pyTol : ℚ := mkRat 1 1000000000

/-- Exact rational subtraction written with `mkRat` so that it
kernel-evaluates; proved equal to `a - b` in `ratSub_eq` below. -/
def ratSub (a b : ℚ) : ℚ := mkRat (a.num * b.den - b.num * a.den) (a.den * b.den)

/-- Python `abs` on an exact rational; proved equal to `|q|` in
`pyAbs_eq_abs` below. -/
def pyAbs (q : ℚ) : ℚ := if q < 0 then -q else q

/-- The numeric rule `abs(result - expected) < 1e-9` (line 78 of the source)
for two finite numbers. -/
def numCloseB (a b : ℚ) : Bool := decide (pyAbs (ratSub a b) < pyTol)

/-- Python `str.strip()`: remove leading and trailing whitespace. -/
def pyStrip (s : String) : String :=
  ⟨((s.data.dropWhile Char.isWhitespace).reverse.dropWhile Char.isWhitespace).reverse⟩

mutual

/-- The host-process `results_equivalent` (lines 42-80 of
`evaluate_results_of_NewCodeBench.py`).  The rules fire in source order:
direct `==` first; then both-`None`; then both ordered sequences, compared
as `list(result) == list(expected)`, which is elementwise Python `==` and
does not recurse through this relation; then both dicts, key sets compared
first and values compared recursively through this relation; then both
sets, compared by `==` again; then both strings after `strip()`; then both
numbers within the `1e-9` tolerance (`nan` fails it, because `nan`
satisfies no comparison); otherwise `False`.  A value pair reaches at most
one of the shape-guarded rules, so a shape-directed match after the
`==`-first test is faithful to the source's if-chain. -/
def results_equivalent : PyVal → PyVal → Bool
  | result, expected =>
    pyEq result expected ||
    match result, expected with
    | .pyNone, .pyNone => true
    | .list xs, .list ys => pyEqL xs ys
    | .list xs, .tuple ys => pyEqL xs ys
    | .tuple xs, .list ys => pyEqL xs ys
    | .tuple xs, .tuple ys => pyEqL xs ys
    | .dict d1, .dict d2 => keySetEqB d1 d2 && dictAllEquiv d1 d2
    | .set xs, .set ys => setEqB xs ys
    | .str a, .str b => decide (pyStrip a = pyStrip b)
    | .num a, .num b => numCloseB a b
    | .num _, .nan => false
    | .nan, .num _ => false
    | .nan, .nan => false
    | _, _ => false

/-- The dict rule's value loop (lines 63-65 of the source): every key of
the first dict maps in the second to a recursively equivalent value.  It is
only reached after the key-set test has passed. -/
def dictAllEquiv : List (String × PyVal) → List (String × PyVal) → Bool
  | [], _ => true
  | (k, v) :: rest, d2 =>
    (match lookupStr k d2 with
     | some w => results_equivalent v w
     | none => false) && dictAllEquiv rest d2

end

mutual

/-- The equivalence routine embedded verbatim in both synthesized harnesses
(lines 117-136 inside `build_function_test_harness_flexible` and the
textually identical lines 231-250 inside `build_class_test_harness`).  It
is the host `results_equivalent` with the explicit set rule omitted: two
sets fall through the string and number type tests to `False`. -/
def harnessEquiv : PyVal → PyVal → Bool
  | result, expected =>
    pyEq result expected ||
    match result, expected with
    | .pyNone, .pyNone => true
    | .list xs, .list ys => pyEqL xs ys
    | .list xs, .tuple ys => pyEqL xs ys
    | .tuple xs, .list ys => pyEqL xs ys
    | .tuple xs, .tuple ys => pyEqL xs ys
    | .dict d1, .dict d2 => keySetEqB d1 d2 && harnessDictAll d1 d2
    | .str a, .str b => decide (pyStrip a = pyStrip b)
    | .num a, .num b => numCloseB a b
    | .num _, .nan => false
    | .nan, .num _ => false
    | .nan, .nan => false
    | _, _ => false

/-- The dict rule's value loop of the embedded routine. -/
def harnessDictAll : List (String × PyVal) → List (String × PyVal) → Bool
  | [], _ => true
  | (k, v) :: rest, d2 =>
    (match lookupStr k d2 with
     | some w => harnessEquiv v w
     | none => false) && harnessDictAll rest d2

end

mutual

/-- Well-formedness of an embedded value as a Python value: every dict has
pairwise distinct keys (a Python dict cannot hold a duplicated key, but the
association-list embedding could). -/
def pyWF : PyVal → Bool
  | .list xs => pyWFL xs
  | .tuple xs => pyWFL xs
  | .set xs => pyWFL xs
  | .dict d => decide ((d.map Prod.fst).Nodup) && pyWFD d
  | _ => true

/-- `pyWF` over a list of values. -/
def pyWFL : List PyVal → Bool
  | [] => true
  | x :: xs => pyWF x && pyWFL xs

/-- `pyWF` over the values of dict entries. -/
def pyWFD : List (String × PyVal) → Bool
  | [] => true
  | (_, v) :: r => pyWF v && pyWFD r

end

/-- Shape test used in C4's statement: `isinstance(x, (list, tuple))`. -/
def isSeqV : PyVal → Bool
  | .list _ => true
  | .tuple _ => true
  | _ => false

/-- The `list(x)` coercion applied to an ordered sequence. -/
def seqElems : PyVal → List PyVal
  | .list xs => xs
  | .tuple xs => xs
  | _ => []

/-- The task-shape classifier `is_class_based_task` (lines 83-97 of the
source).  The single pattern is the conjunction of the source's checks on
the first case's input: it is a Python list of exactly two elements, the
first element is a non-empty list whose first element is a string, and the
second element is a list. -/
def is_class_based_task : List (PyVal × PyVal) → Bool
  | [] => false
  | (first_input, _) :: _ =>
    match first_input with
    | .list [.list (.str _ :: _), .list _] => true
    | _ => false

/-- The object-shaped condition exactly as the claim and spec word it, used
only to compare against `is_class_based_task`: at least one case, and the
first case's input is a two-element sequence whose first element is itself
a non-empty sequence whose first element is a string.  Nothing is required
of the second element. -/
def specObjectShaped : List (PyVal × PyVal) → Bool
  | [] => false
  | (first_input, _) :: _ =>
    match first_input with
    | .list [x0, _] =>
      (match x0 with
       | .list (.str _ :: _) => true
       | .tuple (.str _ :: _) => true
       | _ => false)
    | .tuple [x0, _] =>
      (match x0 with
       | .list (.str _ :: _) => true
       | .tuple (.str _ :: _) => true
       | _ => false)
    | _ => false

/-- Outcome of the child process started by `run_file_and_capture`: it ran
to completion with an exit status and captured streams, or the timeout
fired (`subprocess.TimeoutExpired`), or launching raised and the traceback
text was captured. -/
inductive ProcOutcome : Type where
  | completed : Int → String → String → ProcOutcome
  | timedOut : ProcOutcome
  | launchError : String → ProcOutcome

/-- Substring containment, modelling Python's `in` on strings. -/
def containsSubB (s pat : String) : Bool :=
  s.data.tails.any (fun t => pat.data.isPrefixOf t)

/-- The sandbox runner `run_file_and_capture` (lines 315-343 of the
source), after the child process outcome is known: on completion the two
streams are concatenated and success requires exit status zero together
with the substring `__RESULT__` occurring in the combined output; a timeout
yields failure with the sentinel text; a launch failure yields failure with
the traceback text. -/
def run_file_and_capture : ProcOutcome → Bool × String
  | .completed rc out err =>
    if rc = 0 ∧ containsSubB (out ++ err) "__RESULT__" = true then (true, out ++ err)
    else (false, out ++ err)
  | .timedOut => (false, "TimeoutExpired")
  | .launchError tr => (false, tr)

/-- Split a character list at every occurrence of the separator, keeping
empty pieces, like Python's `str.split` with an explicit separator. -/
def splitCharsOn (c : Char) : List Char → List (List Char)
  | [] => [[]]
  | x :: xs =>
    if x = c then [] :: splitCharsOn c xs
    else
      match splitCharsOn c xs with
      | [] => [[x]]
      | l :: ls => (x :: l) :: ls

/-- A line of the exact form `__RESULT__:<passed>/<total>` with both fields
non-empty digit strings: the marker-line shape the claim's wording
describes. -/
def isResultMarkerLine (line : String) : Bool :=
  "__RESULT__:".data.isPrefixOf line.data &&
  (match splitCharsOn '/' (line.data.drop 11) with
   | [p, t] => decide (p ≠ []) && decide (t ≠ []) && p.all Char.isDigit && t.all Char.isDigit
   | _ => false)

/-- Whether some line of the captured output is an exact-form result marker
line. -/
def hasResultLine (s : String) : Bool :=
  (splitCharsOn '\n' s.data).any (fun cs => isResultMarkerLine ⟨cs⟩)

/-- Positional argument list passed to the entry point by the function
driver: `fn(*args)` when the case input is a list, `fn(args)` otherwise
(lines 188-191 of the source). -/
def argvOfInput : PyVal → List PyVal
  | .list xs => xs
  | a => [a]

/-- The `__run_tests__` loop of the function harness
(`build_function_test_harness_flexible`, lines 168-202 of the source).  The
resolved candidate callable is abstracted as `fn` from positional arguments
to an optional result, `none` standing for a raised exception.  The loop
walks the embedded cases in order, counts `total` up before the call and
`passed` after the equivalence check, and on the first raised exception or
failed check aborts with that case's index (the harness raises an
`AssertionError`, so nothing is printed).  The second component records the
indices of the cases whose call was attempted, in order.  The driver
compares with its embedded `harnessEquiv` routine. -/
def funHarnessGo (fn : List PyVal → Option PyVal) (i passed total : Nat) :
    List (PyVal × PyVal) → Except Nat (Nat × Nat) × List Nat
  | [] => (.ok (passed, total), [])
  | (args, expected) :: rest =>
    match fn (argvOfInput args) with
    | none => (.error i, [i])
    | some result =>
      if harnessEquiv result expected then
        match funHarnessGo fn (i + 1) (passed + 1) (total + 1) rest with
        | (res, calls) => (res, i :: calls)
      else (.error i, [i])

/-- Full run of the synthesized function harness: `.ok (passed, total)`
means the single line `__RESULT__:<passed>/<total>` was printed; `.error i`
means the run aborted at case `i` before printing. -/
def runFunHarness (fn : List PyVal → Option PyVal) (cases : List (PyVal × PyVal)) :
    Except Nat (Nat × Nat) × List Nat :=
  funHarnessGo fn 0 0 0 cases

/-- Whether one case passes under the function driver: the call returns
without raising and the result is equivalent to the expected value. -/
def funCasePasses (fn : List PyVal → Option PyVal) (c : PyVal × PyVal) : Bool :=
  match fn (argvOfInput c.1) with
  | none => false
  | some result => harnessEquiv result c.2

/-- The marker line printed by a completed harness run, `none` when the run
aborted before printing. -/
def funHarnessOutput : Except Nat (Nat × Nat) × List Nat → Option String
  | (.ok (passed, total), _) => some ("__RESULT__:" ++ toString passed ++ "/" ++ toString total)
  | (.error _, _) => none

/-- A candidate class, abstracted for the class harness: `init` models
`cls(*args)` and `method` models `getattr(obj, name)(*args)`, both with
`none` standing for a raised exception (including a missing attribute).
Python mutates the instance in place; the embedding threads the state. -/
structure PyClass (σ : Type) : Type where
  init : List PyVal → Option σ
  method : σ → String → List PyVal → Option (σ × PyVal)

/-- How a class-harness run aborts: the per-case length validation failed,
or step `i` of a case raised, or step `i`'s result failed the equivalence
check.  Each abort is an uncaught exception, so nothing is printed. -/
inductive ClassAbort : Type where
  | lengthMismatch : Nat → ClassAbort
  | stepExn : Nat → Nat → ClassAbort
  | stepMismatch : Nat → Nat → ClassAbort
deriving DecidableEq

/-- Steps `1..N-1` of one case of the class harness (lines 278-287 of the
source): look the named method up on the live instance, invoke it with that
step's arguments (`method(*method_args)` and `method()` coincide when the
argument list is empty), and compare the returned value with that step's
expected value using the embedded `harnessEquiv`. -/
def classSteps {σ : Type} (cls : PyClass σ) (caseIdx : Nat) :
    σ → Nat → List (String × (List PyVal × PyVal)) → Except ClassAbort Unit
  | _, _, [] => .ok ()
  | obj, i, (mname, margs, exp) :: rest =>
    match cls.method obj mname margs with
    | none => .error (.stepExn caseIdx i)
    | some (obj2, result) =>
      if harnessEquiv result exp then classSteps cls caseIdx obj2 (i + 1) rest
      else .error (.stepMismatch caseIdx i)

/-- One case of the class harness (lines 264-289 of the source): validate
that the three lists have equal length, then run step 0, which instantiates
the class with `method_args[0]` as positional arguments
(`cls(*method_args)` when non-empty, `cls()` otherwise — the two coincide
on the empty list), sets `result = None`, and feeds that `None` into the
same equivalence check against `expected[0]` that every later step uses;
then run the remaining steps on the live instance. -/
def runClassCase {σ : Type} (cls : PyClass σ) (caseIdx : Nat)
    (ms : List String) (argsL : List (List PyVal)) (expL : List PyVal) :
    Except ClassAbort Unit :=
  if ms.length = argsL.length ∧ ms.length = expL.length then
    match ms.zip (argsL.zip expL) with
    | [] => .ok ()
    | (_, margs, exp0) :: rest =>
      match (if margs.isEmpty then cls.init [] else cls.init margs) with
      | none => .error (.stepExn caseIdx 0)
      | some obj =>
        if harnessEquiv .pyNone exp0 then classSteps cls caseIdx obj 1 rest
        else .error (.stepMismatch caseIdx 0)
  else .error (.lengthMismatch caseIdx)

/-- The `__run_tests__` loop of the class harness
(`build_class_test_harness`, lines 252-291 of the source): cases run in
order, any abort inside a case is an uncaught exception ending the whole
run, each completed case increments `passed`, and on completion the single
line `__RESULT__:<passed>/<total>` is printed, here `.ok (passed, total)`. -/
def classHarnessGo {σ : Type} (cls : PyClass σ) (caseIdx passed total : Nat) :
    List (List String × (List (List PyVal) × List PyVal)) → Except ClassAbort (Nat × Nat)
  | [] => .ok (passed, total)
  | (ms, argsL, expL) :: rest =>
    match runClassCase cls caseIdx ms argsL expL with
    | .error e => .error e
    | .ok () => classHarnessGo cls (caseIdx + 1) (passed + 1) (total + 1) rest

/-- Full run of the synthesized class harness. -/
def runClassHarness {σ : Type} (cls : PyClass σ)
    (cases : List (List String × (List (List PyVal) × List PyVal))) :
    Except ClassAbort (Nat × Nat) :=
  classHarnessGo cls 0 0 0 cases

/-- A trivial candidate class whose constructor always succeeds and whose
every method returns `None`: with it, every step after the constructor
passes whenever its expected value is `None`.  Used to exhibit concrete
class-harness runs. -/
def constOkClass : PyClass Unit where
  init := fun _ => some ()
  method := fun _ _ _ => some ((), .pyNone)

/-!  Bridging and helper lemmas. -/

theorem ratSub_eq (a b : ℚ) : ratSub a b = a - b := by
  have ha : ((a.den : ℚ)) ≠ 0 := by
    exact_mod_cast a.den_nz
  have hb : ((b.den : ℚ)) ≠ 0 := by
    exact_mod_cast b.den_nz
  unfold ratSub
  rw [Rat.mkRat_eq_div]
  push_cast
  conv_rhs => rw [← Rat.num_div_den a, ← Rat.num_div_den b]
  field_simp
  ring

theorem pyAbs_eq_abs (q : ℚ) : pyAbs q = |q| := by
  unfold pyAbs
  rcases lt_or_ge q 0 with h | h
  · simp [h, abs_of_neg h]
  · simp [not_lt_of_ge h, abs_of_nonneg h]

theorem pyTol_eq : pyTol = 1 / 1000000000 := by
  unfold pyTol
  rw [Rat.mkRat_eq_div]
  norm_num

theorem numCloseB_iff (a b : ℚ) : numCloseB a b = true ↔ |a - b| < 1 / 1000000000 := by
  unfold numCloseB
  rw [pyAbs_eq_abs, ratSub_eq, pyTol_eq]
  simp

theorem numCloseB_comm (a b : ℚ) : numCloseB a b = numCloseB b a := by
  unfold numCloseB
  rw [pyAbs_eq_abs, pyAbs_eq_abs, ratSub_eq, ratSub_eq, abs_sub_comm]

theorem pyVal_strongInd (P : PyVal → Prop)
    (ih : ∀ v, (∀ w, sizeOf w < sizeOf v → P w) → P v) : ∀ v, P v := by
  have H : ∀ n v, sizeOf v < n → P v := by
    intro n
    induction n with
    | zero => intro v h; omega
    | succ n IHn => intro v h; exact ih v (fun w hw => IHn w (by omega))
  intro v
  exact H (sizeOf v + 1) v (by omega)

theorem sizeOf_lt_of_mem_vals {k : String} {v : PyVal} {d : List (String × PyVal)}
    (h : (k, v) ∈ d) : sizeOf v < sizeOf d := by
  have h1 := List.sizeOf_lt_of_mem h
  have h2 : sizeOf (k, v) = 1 + sizeOf k + sizeOf v := rfl
  omega

theorem lookupStr_mem {k : String} {d : List (String × PyVal)} {v : PyVal}
    (h : lookupStr k d = some v) : (k, v) ∈ d := by
  induction d with
  | nil => simp [lookupStr] at h
  | cons p rest IH =>
    obtain ⟨k2, w⟩ := p
    by_cases hk : k = k2
    · subst hk
      simp [lookupStr] at h
      simp [h]
    · simp [lookupStr, hk] at h
      exact List.mem_cons_of_mem _ (IH h)

theorem lookupStr_eq_of_mem_nodup {k : String} {v : PyVal} {d : List (String × PyVal)}
    (hnd : (d.map Prod.fst).Nodup) (h : (k, v) ∈ d) : lookupStr k d = some v := by
  induction d with
  | nil => simp at h
  | cons p rest IH =>
    obtain ⟨k2, w⟩ := p
    simp only [List.map_cons, List.nodup_cons] at hnd
    rcases List.mem_cons.mp h with h1 | h1
    · obtain ⟨hk, hv⟩ := Prod.mk.injEq .. ▸ h1
      injection h1 with hk hv
      subst hk; subst hv
      simp [lookupStr]
    · by_cases hk : k = k2
      · exfalso
        apply hnd.1
        subst hk
        exact List.mem_map.mpr ⟨(k, v), h1, rfl⟩
      · simp only [lookupStr, if_neg hk]
        exact IH hnd.2 h1

theorem lookupStr_isSome_iff {k : String} {d : List (String × PyVal)} :
    (lookupStr k d).isSome = true ↔ k ∈ d.map Prod.fst := by
  induction d with
  | nil => simp [lookupStr]
  | cons p rest IH =>
    obtain ⟨k2, w⟩ := p
    by_cases hk : k = k2
    · subst hk
      simp [lookupStr]
    · simp [lookupStr, hk, IH, Ne.symm hk]

theorem keySetEqB_iff {d1 d2 : List (String × PyVal)} :
    keySetEqB d1 d2 = true ↔ ∀ k, k ∈ d1.map Prod.fst ↔ k ∈ d2.map Prod.fst := by
  unfold keySetEqB
  simp only [Bool.and_eq_true, List.all_eq_true, List.any_eq_true, decide_eq_true_eq]
  constructor
  · rintro ⟨h1, h2⟩ k
    constructor
    · intro hk
      obtain ⟨kv, hkv, hfst⟩ := List.mem_map.mp hk
      obtain ⟨kv2, hkv2, heq⟩ := h1 kv hkv
      exact List.mem_map.mpr ⟨kv2, hkv2, by rw [← heq, hfst]⟩
    · intro hk
      obtain ⟨kv2, hkv2, hfst⟩ := List.mem_map.mp hk
      obtain ⟨kv, hkv, heq⟩ := h2 kv2 hkv2
      exact List.mem_map.mpr ⟨kv, hkv, by rw [← heq, hfst]⟩
  · intro h
    constructor
    · intro kv hkv
      have : kv.1 ∈ d2.map Prod.fst := (h kv.1).mp (List.mem_map.mpr ⟨kv, hkv, rfl⟩)
      obtain ⟨kv2, hkv2, heq⟩ := List.mem_map.mp this
      exact ⟨kv2, hkv2, heq.symm⟩
    · intro kv2 hkv2
      have : kv2.1 ∈ d1.map Prod.fst := (h kv2.1).mpr (List.mem_map.mpr ⟨kv2, hkv2, rfl⟩)
      obtain ⟨kv, hkv, heq⟩ := List.mem_map.mp this
      exact ⟨kv, hkv, heq.symm⟩

theorem sizeOf_mem_list {x : PyVal} {xs : List PyVal} (h : x ∈ xs) :
    sizeOf x < sizeOf (PyVal.list xs) := by
  have := List.sizeOf_lt_of_mem h
  have hs : sizeOf (PyVal.list xs) = 1 + sizeOf xs := by simp
  omega

theorem sizeOf_mem_tuple {x : PyVal} {xs : List PyVal} (h : x ∈ xs) :
    sizeOf x < sizeOf (PyVal.tuple xs) := by
  have := List.sizeOf_lt_of_mem h
  have hs : sizeOf (PyVal.tuple xs) = 1 + sizeOf xs := by simp
  omega

theorem sizeOf_mem_set {x : PyVal} {xs : List PyVal} (h : x ∈ xs) :
    sizeOf x < sizeOf (PyVal.set xs) := by
  have := List.sizeOf_lt_of_mem h
  have hs : sizeOf (PyVal.set xs) = 1 + sizeOf xs := by simp
  omega

theorem sizeOf_mem_dict {k : String} {v : PyVal} {d : List (String × PyVal)}
    (h : (k, v) ∈ d) : sizeOf v < sizeOf (PyVal.dict d) := by
  have := sizeOf_lt_of_mem_vals h
  have hs : sizeOf (PyVal.dict d) = 1 + sizeOf d := by simp
  omega

theorem nanFreeL_mem {xs : List PyVal} {x : PyVal} (h : nanFreeL xs = true) (hx : x ∈ xs) :
    nanFreeB x = true := by
  induction xs with
  | nil => simp at hx
  | cons y ys IHl =>
    simp only [nanFreeL, Bool.and_eq_true] at h
    rcases List.mem_cons.mp hx with rfl | hm
    · exact h.1
    · exact IHl h.2 hm

theorem pyWFL_mem {xs : List PyVal} {x : PyVal} (h : pyWFL xs = true) (hx : x ∈ xs) :
    pyWF x = true := by
  induction xs with
  | nil => simp at hx
  | cons y ys IHl =>
    simp only [pyWFL, Bool.and_eq_true] at h
    rcases List.mem_cons.mp hx with rfl | hm
    · exact h.1
    · exact IHl h.2 hm

theorem nanFreeD_mem {d : List (String × PyVal)} {k : String} {v : PyVal}
    (h : nanFreeD d = true) (hkv : (k, v) ∈ d) : nanFreeB v = true := by
  induction d with
  | nil => simp at hkv
  | cons p rest IHl =>
    obtain ⟨k2, w⟩ := p
    simp only [nanFreeD, Bool.and_eq_true] at h
    rcases List.mem_cons.mp hkv with he | hm
    · injection he with h1 h2
      subst h2
      exact h.1
    · exact IHl h.2 hm

theorem pyWFD_mem {d : List (String × PyVal)} {k : String} {v : PyVal}
    (h : pyWFD d = true) (hkv : (k, v) ∈ d) : pyWF v = true := by
  induction d with
  | nil => simp at hkv
  | cons p rest IHl =>
    obtain ⟨k2, w⟩ := p
    simp only [pyWFD, Bool.and_eq_true] at h
    rcases List.mem_cons.mp hkv with he | hm
    · injection he with h1 h2
      subst h2
      exact h.1
    · exact IHl h.2 hm

theorem hashEqL_iff_aux : ∀ (xs ys : List PyVal),
    (∀ x ∈ xs, ∀ b, hashEqB x b = true ↔ x = b) → (hashEqL xs ys = true ↔ xs = ys)
  | [], [], _ => by simp [hashEqL]
  | [], _ :: _, _ => by simp [hashEqL]
  | _ :: _, [], _ => by simp [hashEqL]
  | x :: xs, y :: ys, IH => by
    have h1 := IH x (by simp) y
    have h2 := hashEqL_iff_aux xs ys (fun z hz b => IH z (by simp [hz]) b)
    simp [hashEqL, h1, h2]

theorem hashEqD_iff_aux : ∀ (d1 d2 : List (String × PyVal)),
    (∀ k v, (k, v) ∈ d1 → ∀ b, hashEqB v b = true ↔ v = b) → (hashEqD d1 d2 = true ↔ d1 = d2)
  | [], [], _ => by simp [hashEqD]
  | [], _ :: _, _ => by simp [hashEqD]
  | _ :: _, [], _ => by simp [hashEqD]
  | (k1, v1) :: r1, (k2, v2) :: r2, IH => by
    have h1 := IH k1 v1 (by simp) v2
    have h2 := hashEqD_iff_aux r1 r2 (fun k v hkv b => IH k v (by simp [hkv]) b)
    simp [hashEqD, h1, h2, and_assoc]

theorem hashEqB_iff : ∀ a b, hashEqB a b = true ↔ a = b := by
  refine pyVal_strongInd _ ?_
  intro a IH b
  cases a with
  | pyNone => cases b <;> simp [hashEqB]
  | num q => cases b <;> simp [hashEqB]
  | nan => cases b <;> simp [hashEqB]
  | str s => cases b <;> simp [hashEqB]
  | list xs =>
    cases b <;> simp [hashEqB]
    exact hashEqL_iff_aux xs _ (fun x hx b => IH x (sizeOf_mem_list hx) b)
  | tuple xs =>
    cases b <;> simp [hashEqB]
    exact hashEqL_iff_aux xs _ (fun x hx b => IH x (sizeOf_mem_tuple hx) b)
  | set xs =>
    cases b <;> simp [hashEqB]
    exact hashEqL_iff_aux xs _ (fun x hx b => IH x (sizeOf_mem_set hx) b)
  | dict d =>
    cases b <;> simp [hashEqB]
    exact hashEqD_iff_aux d _ (fun k v hkv b => IH v (sizeOf_mem_dict hkv) b)

theorem setEqB_comm (s t : List PyVal) : setEqB s t = setEqB t s := by
  unfold setEqB
  exact Bool.and_comm _ _

theorem keySetEqB_comm (d1 d2 : List (String × PyVal)) : keySetEqB d1 d2 = keySetEqB d2 d1 := by
  unfold keySetEqB
  exact Bool.and_comm _ _

theorem pyEqL_refl_aux : ∀ (xs : List PyVal), (∀ x ∈ xs, pyEq x x = true) → pyEqL xs xs = true := by
  intro xs
  induction xs with
  | nil => intro _; simp [pyEqL]
  | cons x rest IHl =>
    intro h
    simp only [pyEqL, Bool.and_eq_true]
    exact ⟨h x (by simp), IHl (fun z hz => h z (by simp [hz]))⟩

theorem pyEqD_iff : ∀ (l d : List (String × PyVal)),
    pyEqD l d = true ↔ ∀ k v, (k, v) ∈ l → ∃ w, lookupStr k d = some w ∧ pyEq v w = true := by
  intro l d
  induction l with
  | nil => simp [pyEqD]
  | cons p rest IHl =>
    obtain ⟨k, v⟩ := p
    simp only [pyEqD, Bool.and_eq_true, IHl]
    cases h : lookupStr k d with
    | none =>
      simp only [h]
      constructor
      · rintro ⟨hfalse, -⟩
        exact absurd hfalse (by simp)
      · intro hall
        obtain ⟨w, hw, -⟩ := hall k v (by simp)
        rw [h] at hw
        cases hw
    | some w =>
      simp only [h]
      constructor
      · rintro ⟨hvw, hrest⟩ k2 v2 hmem
        rcases List.mem_cons.mp hmem with he | hm
        · injection he with h1 h2
          subst h1
          subst h2
          exact ⟨w, h, hvw⟩
        · exact hrest k2 v2 hm
      · intro hall
        refine ⟨?_, fun k2 v2 hm => hall k2 v2 (List.mem_cons_of_mem _ hm)⟩
        obtain ⟨w2, hw2, hvw2⟩ := hall k v (by simp)
        rw [h] at hw2
        injection hw2 with hww
        subst hww
        exact hvw2

theorem dictAllEquiv_iff : ∀ (l d : List (String × PyVal)),
    dictAllEquiv l d = true ↔
      ∀ k v, (k, v) ∈ l → ∃ w, lookupStr k d = some w ∧ results_equivalent v w = true := by
  intro l d
  induction l with
  | nil => simp [dictAllEquiv]
  | cons p rest IHl =>
    obtain ⟨k, v⟩ := p
    simp only [dictAllEquiv, Bool.and_eq_true, IHl]
    cases h : lookupStr k d with
    | none =>
      simp only [h]
      constructor
      · rintro ⟨hfalse, -⟩
        exact absurd hfalse (by simp)
      · intro hall
        obtain ⟨w, hw, -⟩ := hall k v (by simp)
        rw [h] at hw
        cases hw
    | some w =>
      simp only [h]
      constructor
      · rintro ⟨hvw, hrest⟩ k2 v2 hmem
        rcases List.mem_cons.mp hmem with he | hm
        · injection he with h1 h2
          subst h1
          subst h2
          exact ⟨w, h, hvw⟩
        · exact hrest k2 v2 hm
      · intro hall
        refine ⟨?_, fun k2 v2 hm => hall k2 v2 (List.mem_cons_of_mem _ hm)⟩
        obtain ⟨w2, hw2, hvw2⟩ := hall k v (by simp)
        rw [h] at hw2
        injection hw2 with hww
        subst hww
        exact hvw2

theorem harnessDictAll_iff : ∀ (l d : List (String × PyVal)),
    harnessDictAll l d = true ↔
      ∀ k v, (k, v) ∈ l → ∃ w, lookupStr k d = some w ∧ harnessEquiv v w = true := by
  intro l d
  induction l with
  | nil => simp [harnessDictAll]
  | cons p rest IHl =>
    obtain ⟨k, v⟩ := p
    simp only [harnessDictAll, Bool.and_eq_true, IHl]
    cases h : lookupStr k d with
    | none =>
      simp only [h]
      constructor
      · rintro ⟨hfalse, -⟩
        exact absurd hfalse (by simp)
      · intro hall
        obtain ⟨w, hw, -⟩ := hall k v (by simp)
        rw [h] at hw
        cases hw
    | some w =>
      simp only [h]
      constructor
      · rintro ⟨hvw, hrest⟩ k2 v2 hmem
        rcases List.mem_cons.mp hmem with he | hm
        · injection he with h1 h2
          subst h1
          subst h2
          exact ⟨w, h, hvw⟩
        · exact hrest k2 v2 hm
      · intro hall
        refine ⟨?_, fun k2 v2 hm => hall k2 v2 (List.mem_cons_of_mem _ hm)⟩
        obtain ⟨w2, hw2, hvw2⟩ := hall k v (by simp)
        rw [h] at hw2
        injection hw2 with hww
        subst hww
        exact hvw2

theorem setEqB_refl_aux {xs : List PyVal} (h : ∀ x ∈ xs, nanFreeB x = true) :
    setEqB xs xs = true := by
  unfold setEqB
  simp only [Bool.and_eq_true, List.all_eq_true, List.any_eq_true]
  constructor
  · intro x hx
    exact ⟨h x hx, x, hx, (hashEqB_iff x x).mpr rfl⟩
  · intro x hx
    exact ⟨h x hx, x, hx, (hashEqB_iff x x).mpr rfl⟩

theorem pyEqD_of_forall : ∀ (l d : List (String × PyVal)),
    (∀ k v, (k, v) ∈ l → ∃ w, lookupStr k d = some w ∧ pyEq v w = true) → pyEqD l d = true :=
  fun l d h => (pyEqD_iff l d).mpr h

theorem pyEq_refl : ∀ v, nanFreeB v = true → pyWF v = true → pyEq v v = true := by
  refine pyVal_strongInd _ ?_
  intro v IH hnan hwf
  cases v with
  | pyNone => simp [pyEq]
  | num q => simp [pyEq]
  | nan => simp [nanFreeB] at hnan
  | str s => simp [pyEq]
  | list xs =>
    simp only [nanFreeB] at hnan
    simp only [pyWF] at hwf
    simp only [pyEq]
    exact pyEqL_refl_aux xs
      (fun x hx => IH x (sizeOf_mem_list hx) (nanFreeL_mem hnan hx) (pyWFL_mem hwf hx))
  | tuple xs =>
    simp only [nanFreeB] at hnan
    simp only [pyWF] at hwf
    simp only [pyEq]
    exact pyEqL_refl_aux xs
      (fun x hx => IH x (sizeOf_mem_tuple hx) (nanFreeL_mem hnan hx) (pyWFL_mem hwf hx))
  | set xs =>
    simp only [nanFreeB] at hnan
    simp only [pyEq]
    exact setEqB_refl_aux (fun x hx => nanFreeL_mem hnan hx)
  | dict d =>
    simp only [nanFreeB] at hnan
    simp only [pyWF, Bool.and_eq_true, decide_eq_true_eq] at hwf
    simp only [pyEq, Bool.and_eq_true, decide_eq_true_eq]
    refine ⟨by simp, ?_⟩
    apply pyEqD_of_forall
    intro k v hkv
    refine ⟨v, lookupStr_eq_of_mem_nodup hwf.1 hkv, ?_⟩
    exact IH v (sizeOf_mem_dict hkv) (nanFreeD_mem hnan hkv) (pyWFD_mem hwf.2 hkv)

theorem nodup_len_sub_iff {l1 l2 : List String} (h1 : l1.Nodup) (h2 : l2.Nodup)
    (hlen : l1.length = l2.length) (hsub : ∀ k ∈ l1, k ∈ l2) : ∀ k, k ∈ l1 ↔ k ∈ l2 := by
  have hsubf : l1.toFinset ⊆ l2.toFinset :=
    fun k hk => List.mem_toFinset.mpr (hsub k (List.mem_toFinset.mp hk))
  have hc1 := List.toFinset_card_of_nodup h1
  have hc2 := List.toFinset_card_of_nodup h2
  have heq : l1.toFinset = l2.toFinset := Finset.eq_of_subset_of_card_le hsubf (by omega)
  intro k
  rw [← List.mem_toFinset, ← List.mem_toFinset, heq]

theorem pyEqL_symm_aux : ∀ (xs ys : List PyVal),
    (∀ x ∈ xs, ∀ y ∈ ys, pyEq x y = pyEq y x) → pyEqL xs ys = pyEqL ys xs
  | [], [], _ => rfl
  | [], _ :: _, _ => rfl
  | _ :: _, [], _ => rfl
  | x :: xs, y :: ys, H => by
    have h1 := H x (by simp) y (by simp)
    have h2 := pyEqL_symm_aux xs ys (fun a ha b hb => H a (by simp [ha]) b (by simp [hb]))
    simp only [pyEqL, h1, h2]

theorem pyEqDict_true_flip {d1 d2 : List (String × PyVal)}
    (h1 : (d1.map Prod.fst).Nodup) (h2 : (d2.map Prod.fst).Nodup)
    (hsym : ∀ k v, (k, v) ∈ d1 → ∀ k2 w, (k2, w) ∈ d2 → pyEq v w = pyEq w v)
    (h : (decide (d1.length = d2.length) && pyEqD d1 d2) = true) :
    (decide (d2.length = d1.length) && pyEqD d2 d1) = true := by
  rw [Bool.and_eq_true] at h
  obtain ⟨hlen, hD⟩ := h
  rw [decide_eq_true_eq] at hlen
  rw [Bool.and_eq_true, decide_eq_true_eq]
  refine ⟨hlen.symm, ?_⟩
  rw [pyEqD_iff] at hD ⊢
  have hkeys : ∀ k, k ∈ d1.map Prod.fst ↔ k ∈ d2.map Prod.fst := by
    apply nodup_len_sub_iff h1 h2 (by simp [hlen])
    intro k hk
    obtain ⟨p, hp, hpk⟩ := List.mem_map.mp hk
    obtain ⟨w, hw, -⟩ := hD p.1 p.2 (by simpa using hp)
    have hsome : (lookupStr p.1 d2).isSome = true := by simp [hw]
    have := lookupStr_isSome_iff.mp hsome
    rwa [hpk] at this
  intro k w hw2
  have hk1 : k ∈ d1.map Prod.fst :=
    (hkeys k).mpr (List.mem_map.mpr ⟨(k, w), hw2, rfl⟩)
  obtain ⟨v, hv⟩ := Option.isSome_iff_exists.mp (lookupStr_isSome_iff.mpr hk1)
  have hv_mem : (k, v) ∈ d1 := lookupStr_mem hv
  obtain ⟨w2, hw2l, hvw2⟩ := hD k v hv_mem
  have hlk : lookupStr k d2 = some w := lookupStr_eq_of_mem_nodup h2 hw2
  rw [hlk] at hw2l
  injection hw2l with hww
  subst hww
  refine ⟨v, hv, ?_⟩
  rw [← hsym k v hv_mem k w hw2]
  exact hvw2

theorem pyEq_symm : ∀ a, pyWF a = true → ∀ b, pyWF b = true → pyEq a b = pyEq b a := by
  refine pyVal_strongInd _ ?_
  intro a IH ha b hb
  cases a with
  | pyNone => cases b <;> simp [pyEq]
  | num q => cases b <;> simp [pyEq, eq_comm]
  | nan => cases b <;> simp [pyEq]
  | str s => cases b <;> simp [pyEq, eq_comm]
  | list xs =>
    cases b <;> simp [pyEq]
    case list ys =>
      simp only [pyWF] at ha hb
      exact pyEqL_symm_aux xs ys
        (fun x hx y hy =>
          IH x (sizeOf_mem_list hx) (pyWFL_mem ha hx) y (pyWFL_mem hb hy))
  | tuple xs =>
    cases b <;> simp [pyEq]
    case tuple ys =>
      simp only [pyWF] at ha hb
      exact pyEqL_symm_aux xs ys
        (fun x hx y hy =>
          IH x (sizeOf_mem_tuple hx) (pyWFL_mem ha hx) y (pyWFL_mem hb hy))
  | set xs =>
    cases b <;> simp [pyEq]
    case set ys => exact setEqB_comm xs ys
  | dict d1 =>
    cases b <;> simp [pyEq]
    case dict d2 =>
      simp only [pyWF, Bool.and_eq_true, decide_eq_true_eq] at ha hb
      have hsym : ∀ k v, (k, v) ∈ d1 → ∀ k2 w, (k2, w) ∈ d2 → pyEq v w = pyEq w v :=
        fun k v hkv k2 w hk2w =>
          IH v (sizeOf_mem_dict hkv) (pyWFD_mem ha.2 hkv) w (pyWFD_mem hb.2 hk2w)
      refine Bool.eq_iff_iff.mpr ?_
      constructor
      · intro h
        exact pyEqDict_true_flip ha.1 hb.1 hsym h
      · intro h
        refine pyEqDict_true_flip hb.1 ha.1 ?_ h
        intro k w hw k2 v hv
        exact (hsym k2 v hv k w hw).symm

theorem re_of_pyEq {a b : PyVal} (h : pyEq a b = true) : results_equivalent a b = true := by
  cases a <;> cases b <;> simp_all [results_equivalent, pyEq]

theorem dictAllEquiv_true_flip {d1 d2 : List (String × PyVal)}
    (h2 : (d2.map Prod.fst).Nodup)
    (hkeys : keySetEqB d1 d2 = true)
    (hsym : ∀ k v, (k, v) ∈ d1 → ∀ k2 w, (k2, w) ∈ d2 →
      results_equivalent v w = results_equivalent w v)
    (h : dictAllEquiv d1 d2 = true) : dictAllEquiv d2 d1 = true := by
  rw [dictAllEquiv_iff] at h ⊢
  have hk := keySetEqB_iff.mp hkeys
  intro k w hw2
  have hk1 : k ∈ d1.map Prod.fst :=
    (hk k).mpr (List.mem_map.mpr ⟨(k, w), hw2, rfl⟩)
  obtain ⟨v, hv⟩ := Option.isSome_iff_exists.mp (lookupStr_isSome_iff.mpr hk1)
  have hv_mem : (k, v) ∈ d1 := lookupStr_mem hv
  obtain ⟨w2, hw2l, hvw2⟩ := h k v hv_mem
  have hlk : lookupStr k d2 = some w := lookupStr_eq_of_mem_nodup h2 hw2
  rw [hlk] at hw2l
  injection hw2l with hww
  subst hww
  refine ⟨v, hv, ?_⟩
  rw [← hsym k v hv_mem k w hw2]
  exact hvw2

theorem results_equivalent_symm : ∀ a, pyWF a = true → ∀ b, pyWF b = true →
    results_equivalent a b = results_equivalent b a := by
  refine pyVal_strongInd _ ?_
  intro a IH ha b hb
  cases a with
  | pyNone => cases b <;> simp [results_equivalent, pyEq]
  | num q => cases b <;> simp [results_equivalent, pyEq, eq_comm, numCloseB_comm]
  | nan => cases b <;> simp [results_equivalent, pyEq]
  | str s => cases b <;> simp [results_equivalent, pyEq, eq_comm]
  | list xs =>
    simp only [pyWF] at ha
    cases b <;> simp [results_equivalent, pyEq]
    case list ys =>
      simp only [pyWF] at hb
      exact pyEqL_symm_aux xs ys
        (fun x hx y hy => pyEq_symm x (pyWFL_mem ha hx) y (pyWFL_mem hb hy))
    case tuple ys =>
      simp only [pyWF] at hb
      exact pyEqL_symm_aux xs ys
        (fun x hx y hy => pyEq_symm x (pyWFL_mem ha hx) y (pyWFL_mem hb hy))
  | tuple xs =>
    simp only [pyWF] at ha
    cases b <;> simp [results_equivalent, pyEq]
    case list ys =>
      simp only [pyWF] at hb
      exact pyEqL_symm_aux xs ys
        (fun x hx y hy => pyEq_symm x (pyWFL_mem ha hx) y (pyWFL_mem hb hy))
    case tuple ys =>
      simp only [pyWF] at hb
      exact pyEqL_symm_aux xs ys
        (fun x hx y hy => pyEq_symm x (pyWFL_mem ha hx) y (pyWFL_mem hb hy))
  | set xs =>
    cases b <;> simp [results_equivalent, pyEq]
    case set ys => exact setEqB_comm xs ys
  | dict d1 =>
    simp only [pyWF, Bool.and_eq_true, decide_eq_true_eq] at ha
    cases b <;> simp [results_equivalent, pyEq]
    case dict d2 =>
      simp only [pyWF, Bool.and_eq_true, decide_eq_true_eq] at hb
      have hsymEq : ∀ k v, (k, v) ∈ d1 → ∀ k2 w, (k2, w) ∈ d2 → pyEq v w = pyEq w v :=
        fun k v hkv k2 w hk2w =>
          pyEq_symm v (pyWFD_mem ha.2 hkv) w (pyWFD_mem hb.2 hk2w)
      have hsymRe : ∀ k v, (k, v) ∈ d1 → ∀ k2 w, (k2, w) ∈ d2 →
          results_equivalent v w = results_equivalent w v :=
        fun k v hkv k2 w hk2w =>
          IH v (sizeOf_mem_dict hkv) (pyWFD_mem ha.2 hkv) w (pyWFD_mem hb.2 hk2w)
      refine Bool.eq_iff_iff.mpr ?_
      constructor
      · intro h
        rcases Bool.or_eq_true_iff.mp h with hL | hR
        · exact Bool.or_eq_true_iff.mpr (Or.inl (pyEqDict_true_flip ha.1 hb.1 hsymEq hL))
        · rw [Bool.and_eq_true] at hR
          refine Bool.or_eq_true_iff.mpr (Or.inr ?_)
          rw [Bool.and_eq_true]
          refine ⟨?_, ?_⟩
          · rw [keySetEqB_comm]
            exact hR.1
          · exact dictAllEquiv_true_flip hb.1 hR.1 hsymRe hR.2
      · intro h
        have hsymEq2 : ∀ k v, (k, v) ∈ d2 → ∀ k2 w, (k2, w) ∈ d1 → pyEq v w = pyEq w v :=
          fun k v hkv k2 w hk2w => (hsymEq k2 w hk2w k v hkv).symm
        have hsymRe2 : ∀ k v, (k, v) ∈ d2 → ∀ k2 w, (k2, w) ∈ d1 →
            results_equivalent v w = results_equivalent w v :=
          fun k v hkv k2 w hk2w => (hsymRe k2 w hk2w k v hkv).symm
        rcases Bool.or_eq_true_iff.mp h with hL | hR
        · exact Bool.or_eq_true_iff.mpr (Or.inl (pyEqDict_true_flip hb.1 ha.1 hsymEq2 hL))
        · rw [Bool.and_eq_true] at hR
          refine Bool.or_eq_true_iff.mpr (Or.inr ?_)
          rw [Bool.and_eq_true]
          refine ⟨?_, ?_⟩
          · rw [keySetEqB_comm]
            exact hR.1
          · exact dictAllEquiv_true_flip ha.1 hR.1 hsymRe2 hR.2

theorem dictAll_congr_harness : ∀ (l d : List (String × PyVal)),
    (∀ p ∈ l, ∀ w, results_equivalent p.2 w = harnessEquiv p.2 w) →
    dictAllEquiv l d = harnessDictAll l d
  | [], _, _ => rfl
  | (k, v) :: rest, d, H => by
    have h1 := H (k, v) (by simp)
    have h2 := dictAll_congr_harness rest d (fun p hp w => H p (by simp [hp]) w)
    cases h : lookupStr k d with
    | none => simp [dictAllEquiv, harnessDictAll, h, h2]
    | some w => simp [dictAllEquiv, harnessDictAll, h, h1 w, h2]

/-- Claim C9: the host-process `results_equivalent` and the equivalence
routine embedded in both synthesized harnesses (modelled once as
`harnessEquiv`, the two embedded copies being textually identical) decide
identically on every pair of values: the explicit set rule that only the
host version carries returns `result == expected`, which the direct
equality rule has already tested, so omitting it never changes the
verdict. -/
theorem results_equivalent_eq_harnessEquiv : ∀ a b, results_equivalent a b = harnessEquiv a b := by
  refine pyVal_strongInd (fun a => ∀ b, results_equivalent a b = harnessEquiv a b) ?_
  intro a IH b
  cases a <;> cases b <;> try rfl
  case set.set xs ys => simp [results_equivalent, harnessEquiv, pyEq]
  case dict.dict d1 d2 =>
    simp only [results_equivalent, harnessEquiv]
    rw [dictAll_congr_harness d1 d2
      (fun p hp w => IH p.2 (sizeOf_mem_dict (by simpa using hp)) w)]

theorem re_seq (r e : PyVal) (hr : isSeqV r = true) (he : isSeqV e = true) :
    results_equivalent r e = pyEqL (seqElems r) (seqElems e) := by
  cases r <;> cases e <;> simp_all [isSeqV, seqElems, results_equivalent, pyEq]

theorem re_num_iff (a b : ℚ) :
    results_equivalent (.num a) (.num b) = true ↔ |a - b| < 1 / 1000000000 := by
  simp only [results_equivalent, pyEq, Bool.or_eq_true, decide_eq_true_eq, numCloseB_iff]
  constructor
  · rintro (rfl | h)
    · simp
    · exact h
  · intro h
    exact Or.inr h

theorem re_dict_iff {d1 d2 : List (String × PyVal)}
    (h1 : (d1.map Prod.fst).Nodup) (h2 : (d2.map Prod.fst).Nodup) :
    results_equivalent (.dict d1) (.dict d2) = true ↔
      ((∀ k, k ∈ d1.map Prod.fst ↔ k ∈ d2.map Prod.fst) ∧
       ∀ k v w, lookupStr k d1 = some v → lookupStr k d2 = some w →
         results_equivalent v w = true) := by
  constructor
  · intro h
    simp only [results_equivalent, Bool.or_eq_true] at h
    rcases h with hL | hR
    · simp only [pyEq, Bool.and_eq_true, decide_eq_true_eq] at hL
      obtain ⟨hlen, hD⟩ := hL
      rw [pyEqD_iff] at hD
      have hkeys : ∀ k, k ∈ d1.map Prod.fst ↔ k ∈ d2.map Prod.fst := by
        apply nodup_len_sub_iff h1 h2 (by simp [hlen])
        intro k hk
        obtain ⟨p, hp, hpk⟩ := List.mem_map.mp hk
        obtain ⟨w, hw, -⟩ := hD p.1 p.2 (by simpa using hp)
        have hsome : (lookupStr p.1 d2).isSome = true := by simp [hw]
        have := lookupStr_isSome_iff.mp hsome
        rwa [hpk] at this
      refine ⟨hkeys, ?_⟩
      intro k v w hv hw
      obtain ⟨w2, hw2, hvw⟩ := hD k v (lookupStr_mem hv)
      rw [hw] at hw2
      injection hw2 with hww
      subst hww
      exact re_of_pyEq hvw
    · rw [Bool.and_eq_true] at hR
      obtain ⟨hks, hDA⟩ := hR
      rw [dictAllEquiv_iff] at hDA
      refine ⟨keySetEqB_iff.mp hks, ?_⟩
      intro k v w hv hw
      obtain ⟨w2, hw2, hvw⟩ := hDA k v (lookupStr_mem hv)
      rw [hw] at hw2
      injection hw2 with hww
      subst hww
      exact hvw
  · rintro ⟨hkeys, hvals⟩
    simp only [results_equivalent, Bool.or_eq_true]
    refine Or.inr ?_
    rw [Bool.and_eq_true]
    refine ⟨keySetEqB_iff.mpr hkeys, ?_⟩
    rw [dictAllEquiv_iff]
    intro k v hkv
    have hk2 : k ∈ d2.map Prod.fst :=
      (hkeys k).mp (List.mem_map.mpr ⟨(k, v), hkv, rfl⟩)
    obtain ⟨w, hw⟩ := Option.isSome_iff_exists.mp (lookupStr_isSome_iff.mpr hk2)
    exact ⟨w, hw, hvals k v w (lookupStr_eq_of_mem_nodup h1 hkv) hw⟩

theorem funHarnessGo_all_pass (fn : List PyVal → Option PyVal) :
    ∀ (cs : List (PyVal × PyVal)) (i p t : Nat),
      (∀ c ∈ cs, funCasePasses fn c = true) →
      funHarnessGo fn i p t cs = (.ok (p + cs.length, t + cs.length), List.range' i cs.length) := by
  intro cs
  induction cs with
  | nil =>
    intro i p t _
    simp [funHarnessGo, List.range']
  | cons c rest IHl =>
    intro i p t h
    obtain ⟨args, expected⟩ := c
    have hc := h (args, expected) (by simp)
    simp only [funCasePasses] at hc
    cases hfn : fn (argvOfInput args) with
    | none =>
      simp only [hfn] at hc
      simp at hc
    | some result =>
      simp only [hfn] at hc
      simp only [funHarnessGo, hfn]
      rw [if_pos hc, IHl (i + 1) (p + 1) (t + 1) (fun z hz => h z (by simp [hz]))]
      have e1 : p + 1 + rest.length = p + (rest.length + 1) := by omega
      have e2 : t + 1 + rest.length = t + (rest.length + 1) := by omega
      simp only [List.length_cons, e1, e2]
      rfl

theorem funHarnessGo_first_fail (fn : List PyVal → Option PyVal) :
    ∀ (pre : List (PyVal × PyVal)) (c : PyVal × PyVal) (post : List (PyVal × PyVal))
      (i p t : Nat),
      (∀ x ∈ pre, funCasePasses fn x = true) → funCasePasses fn c = false →
      funHarnessGo fn i p t (pre ++ c :: post) =
        (.error (i + pre.length), List.range' i (pre.length + 1)) := by
  intro pre
  induction pre with
  | nil =>
    intro c post i p t _ hc
    obtain ⟨args, expected⟩ := c
    simp only [funCasePasses] at hc
    cases hfn : fn (argvOfInput args) with
    | none =>
      simp only [List.nil_append]
      simp [funHarnessGo, hfn, List.range']
    | some result =>
      simp only [hfn] at hc
      simp only [List.nil_append, funHarnessGo, hfn]
      rw [if_neg (by simp [hc])]
      simp [List.range']
  | cons x pre IHl =>
    intro c post i p t h hc
    obtain ⟨args, expected⟩ := x
    have hx := h (args, expected) (by simp)
    simp only [funCasePasses] at hx
    cases hfn : fn (argvOfInput args) with
    | none =>
      simp only [hfn] at hx
      simp at hx
    | some result =>
      simp only [hfn] at hx
      simp only [List.cons_append, funHarnessGo, hfn]
      simp only [List.append_eq]
      rw [if_pos hx, IHl c post (i + 1) (p + 1) (t + 1) (fun z hz => h z (by simp [hz])) hc]
      have e1 : i + 1 + pre.length = i + (pre.length + 1) := by omega
      simp only [List.length_cons, e1]
      rfl

theorem runClassCase_cons_ok_iff {σ : Type} (cls : PyClass σ) (caseIdx : Nat)
    (m0 : String) (ms : List String) (a0 : List PyVal) (argsL : List (List PyVal))
    (e0 : PyVal) (expL : List PyVal)
    (hl1 : (m0 :: ms).length = (a0 :: argsL).length)
    (hl2 : (m0 :: ms).length = (e0 :: expL).length) :
    runClassCase cls caseIdx (m0 :: ms) (a0 :: argsL) (e0 :: expL) = .ok () ↔
      ∃ obj, cls.init a0 = some obj ∧ harnessEquiv .pyNone e0 = true ∧
        classSteps cls caseIdx obj 1 (ms.zip (argsL.zip expL)) = .ok () := by
  unfold runClassCase
  rw [if_pos ⟨hl1, hl2⟩]
  simp only [List.zip_cons_cons]
  have hinit : (if a0.isEmpty then cls.init [] else cls.init a0) = cls.init a0 := by
    cases a0 <;> simp
  rw [hinit]
  cases h : cls.init a0 with
  | none => simp
  | some obj =>
    by_cases heq : harnessEquiv .pyNone e0 = true
    · simp [heq]
    · simp [heq]

/-- Claim C1 counterexample: an execution that exits with status zero and
prints exactly the bare text `__RESULT__` — not a line of the exact form
`__RESULT__:<passed>/<total>` — is declared a success by
`run_file_and_capture`, so "absence of the exact marker line implies
failure" is false on the code; the last conjunct checks the exact-form
line test is satisfiable, so the refutation is not vacuous. -/
theorem sandbox_marker_substring_counterexample :
    (run_file_and_capture (.completed 0 "__RESULT__" "")).1 = true ∧
    hasResultLine ((run_file_and_capture (.completed 0 "__RESULT__" "")).2) = false ∧
    hasResultLine "__RESULT__:1/1" = true := by decide

/-- Claim C1 (amended): the Sandbox Executor returns success iff the child
process ran to completion with exit status zero and the captured combined
output contains the substring `__RESULT__` (not necessarily a full line of
the exact form `__RESULT__:<passed>/<total>`); a timeout returns failure
with the sentinel text and a launch failure returns failure with the
traceback, regardless of anything else. -/
theorem run_file_and_capture_success_iff :
    (∀ o : ProcOutcome, (run_file_and_capture o).1 = true ↔
      ∃ rc out err, o = .completed rc out err ∧ rc = 0 ∧
        containsSubB (out ++ err) "__RESULT__" = true) ∧
    run_file_and_capture .timedOut = (false, "TimeoutExpired") ∧
    (∀ tr, run_file_and_capture (.launchError tr) = (false, tr)) := by
  refine ⟨?_, rfl, fun tr => rfl⟩
  intro o
  cases o with
  | completed rc out err =>
    simp only [run_file_and_capture]
    by_cases h : rc = 0 ∧ containsSubB (out ++ err) "__RESULT__" = true
    · rw [if_pos h]
      constructor
      · intro _
        exact ⟨rc, out, err, rfl, h.1, h.2⟩
      · intro _
        rfl
    · rw [if_neg h]
      constructor
      · intro hFalse
        exact absurd hFalse (by simp)
      · rintro ⟨rc2, out2, err2, heq, h0, hcsub⟩
        injection heq with e1 e2 e3
        subst e1
        subst e2
        subst e3
        exact absurd ⟨h0, hcsub⟩ h
  | timedOut => simp [run_file_and_capture]
  | launchError tr => simp [run_file_and_capture]

/-- Claim C2 counterexample: a first case whose input is a two-element list
whose first element is a non-empty list headed by a string but whose second
element is a number satisfies the claim's classification condition
(`specObjectShaped`, worded exactly as the claim), yet
`is_class_based_task` returns function-shaped, because the code also
requires the second element to be a list. -/
theorem is_class_based_task_counterexample :
    specObjectShaped [(.list [.list [.str "Stack"], .num 5], .pyNone)] = true ∧
    is_class_based_task [(.list [.list [.str "Stack"], .num 5], .pyNone)] = false := by decide

/-- Claim C2 (amended): `is_class_based_task` returns object-shaped iff the
case list is non-empty and the first case's input is a Python list of
exactly two elements whose first element is a non-empty list headed by a
string and whose second element is also a list; in particular it is
object-shaped for first input `[["Stack","push","pop"], [[], [1], []]]`,
and function-shaped for first input `[1, 2]` and for an empty case list. -/
theorem is_class_based_task_characterization :
    (∀ cs : List (PyVal × PyVal), is_class_based_task cs = true ↔
      ∃ s tl ys out rest, cs = (.list [.list (.str s :: tl), .list ys], out) :: rest) ∧
    is_class_based_task [(.list [.list [.str "Stack", .str "push", .str "pop"],
      .list [.list [], .list [.num 1], .list []]], .pyNone)] = true ∧
    is_class_based_task [(.list [.num 1, .num 2], .pyNone)] = false ∧
    is_class_based_task ([] : List (PyVal × PyVal)) = false := by
  refine ⟨?_, by decide, by decide, by decide⟩
  intro cs
  constructor
  · intro h
    rcases cs with _ | ⟨⟨fi, out⟩, rest⟩
    · exact absurd h (by decide)
    rcases fi with _ | q1 | _ | s1 | xs | xs | d1 | xs <;>
      try simp [is_class_based_task] at h
    rcases xs with _ | ⟨x0, _ | ⟨x1, _ | ⟨x2, xs3⟩⟩⟩ <;>
      try simp [is_class_based_task] at h
    rcases x0 with _ | q2 | _ | s2 | es | es | d2 | es <;>
      try simp [is_class_based_task] at h
    rcases es with _ | ⟨e0, etl⟩ <;>
      try simp [is_class_based_task] at h
    rcases e0 with _ | q3 | _ | s3 | fs | fs | d3 | fs <;>
      try simp [is_class_based_task] at h
    rcases x1 with _ | q4 | _ | s4 | gs | gs | d4 | gs <;>
      try simp [is_class_based_task] at h
    exact ⟨s3, etl, gs, out, rest, rfl⟩
  · rintro ⟨s, tl, ys, out, rest, rfl⟩
    rfl

/-- Claim C3 counterexample: a one-step case (constructor only, so every
later step vacuously matches) with expected value `5` at index 0 aborts at
step 0, while the same case with expected value `null` completes — so the
driver does not complete a case "regardless of what expected[0] is": the
constructor's forced `None` result is fed into the equivalence check
against `expected[0]`. -/
theorem class_driver_expected0_counterexample :
    runClassCase constOkClass 0 ["C"] [[]] [.num 5] = .error (.stepMismatch 0 0) ∧
    runClassCase constOkClass 0 ["C"] [[]] [.pyNone] = .ok () := ⟨rfl, rfl⟩

/-- Claim C3 (amended): in the object-shaped driver, step 0 of every case
instantiates the resolved class with `method_args[0]` as positional
arguments (no arguments when that list is empty, which coincides with
passing the empty list), and the case completes iff the constructor
returns, `expected[0]` passes the equivalence check against `None`, and
every later step matches — the expected value at index 0 IS checked,
against the forced `None` constructor result. -/
theorem class_driver_step0_characterization {σ : Type} (cls : PyClass σ) (caseIdx : Nat)
    (m0 : String) (ms : List String) (a0 : List PyVal) (argsL : List (List PyVal))
    (e0 : PyVal) (expL : List PyVal)
    (hl1 : (m0 :: ms).length = (a0 :: argsL).length)
    (hl2 : (m0 :: ms).length = (e0 :: expL).length) :
    runClassCase cls caseIdx (m0 :: ms) (a0 :: argsL) (e0 :: expL) = .ok () ↔
      ∃ obj, cls.init a0 = some obj ∧ harnessEquiv .pyNone e0 = true ∧
        classSteps cls caseIdx obj 1 (ms.zip (argsL.zip expL)) = .ok () :=
  runClassCase_cons_ok_iff cls caseIdx m0 ms a0 argsL e0 expL hl1 hl2

/-- Claim C3 witness: the characterization applied to a concrete one-step
case whose expected value at index 0 is `null`. -/
theorem class_driver_step0_witness :
    runClassCase constOkClass 0 ["C"] [[]] [.pyNone] = .ok () :=
  (class_driver_step0_characterization constOkClass 0 "C" [] [] [] .pyNone []
    (by decide) (by decide)).mpr ⟨(), rfl, by decide, rfl⟩

/-- Claim C4: when both arguments are ordered sequences (list or tuple, in
any combination) the verdict equals coercing both to lists and comparing
elementwise with Python `==`, with no recursion through the equivalence
relation: `[1,2]` vs `(1,2)` is equivalent, `[1,2]` vs `[2,1]` is not, and
two single-element sequences whose numeric elements differ while lying
within the `1e-9` tolerance are not equivalent. -/
theorem seq_rule_elementwise_hosteq :
    (∀ r e, isSeqV r = true → isSeqV e = true →
      results_equivalent r e = pyEqL (seqElems r) (seqElems e)) ∧
    results_equivalent (.list [.num 1, .num 2]) (.tuple [.num 1, .num 2]) = true ∧
    results_equivalent (.list [.num 1, .num 2]) (.list [.num 2, .num 1]) = false ∧
    (∀ a b : ℚ, a ≠ b → |a - b| < 1 / 1000000000 →
      results_equivalent (.list [.num a]) (.list [.num b]) = false ∧
      results_equivalent (.tuple [.num a]) (.tuple [.num b]) = false ∧
      results_equivalent (.list [.num a]) (.tuple [.num b]) = false ∧
      results_equivalent (.tuple [.num a]) (.list [.num b]) = false) := by
  refine ⟨re_seq, by decide, by decide, ?_⟩
  intro a b hne htol
  refine ⟨?_, ?_, ?_, ?_⟩ <;>
    simp [results_equivalent, pyEq, pyEqL, decide_eq_false hne]

/-- Claim C4 witness: the sequence rule evaluated at concrete inputs — two
single-element lists of numbers `1e-10` apart are not equivalent, and a
pair of equal singleton lists reduces to the elementwise comparison. -/
theorem seq_rule_elementwise_hosteq_witness :
    results_equivalent (.list [.num 3]) (.list [.num (mkRat 30000000001 10000000000)]) = false ∧
    results_equivalent (.list [.num 1]) (.list [.num 1]) = pyEqL [.num 1] [.num 1] := by
  constructor
  · refine (seq_rule_elementwise_hosteq.2.2.2 3 (mkRat 30000000001 10000000000)
      (by decide) ?_).1
    rw [Rat.mkRat_eq_div, abs_lt]
    constructor <;> push_cast <;> norm_num
  · exact seq_rule_elementwise_hosteq.1 (.list [.num 1]) (.list [.num 1]) (by decide) (by decide)

/-- Claim C5: two dicts are equivalent iff their key sets coincide and every
shared key's two values are recursively equivalent; consequently entry
order is irrelevant and the numeric tolerance applies to nested mapping
values. -/
theorem dict_rule_recursive_keyset :
    (∀ d1 d2 : List (String × PyVal),
      (d1.map Prod.fst).Nodup → (d2.map Prod.fst).Nodup →
      (results_equivalent (.dict d1) (.dict d2) = true ↔
        ((∀ k, k ∈ d1.map Prod.fst ↔ k ∈ d2.map Prod.fst) ∧
         ∀ k v w, lookupStr k d1 = some v → lookupStr k d2 = some w →
           results_equivalent v w = true))) ∧
    results_equivalent (.dict [("a", .num 1), ("b", .num 2)])
      (.dict [("b", .num 2), ("a", .num 1)]) = true ∧
    results_equivalent (.dict [("a", .num 3)])
      (.dict [("a", .num (mkRat 30000000001 10000000000))]) = true :=
  ⟨fun d1 d2 h1 h2 => re_dict_iff h1 h2, by decide, by decide⟩

/-- Claim C5 witness: the dict characterization applied to a concrete
single-entry dict pair. -/
theorem dict_rule_recursive_keyset_witness :
    (∀ k, k ∈ ([("a", PyVal.num 1)].map Prod.fst) ↔ k ∈ ([("a", PyVal.num 1)].map Prod.fst)) ∧
    (∀ k v w, lookupStr k [("a", PyVal.num 1)] = some v →
      lookupStr k [("a", PyVal.num 1)] = some w → results_equivalent v w = true) :=
  (dict_rule_recursive_keyset.1 [("a", .num 1)] [("a", .num 1)]
    (by decide) (by decide)).mp (by decide)

/-- Claim C6: two numbers are equivalent iff their absolute difference is
strictly below `1e-9`; `3` and `3.0` are the same numeric value in the
embedding (Python compares them `==`-equal across int/float kinds), `3` vs
`3.0000000001` is within tolerance, and `3` vs `3.1` is not. -/
theorem num_rule_tolerance_iff :
    (∀ a b : ℚ, results_equivalent (.num a) (.num b) = true ↔ |a - b| < 1 / 1000000000) ∧
    results_equivalent (.num 3) (.num 3) = true ∧
    results_equivalent (.num 3) (.num (mkRat 30000000001 10000000000)) = true ∧
    results_equivalent (.num 3) (.num (mkRat 31 10)) = false :=
  ⟨re_num_iff, by decide, by decide, by decide⟩

/-- Claim C7: the function driver is fail-fast — if every case passes it
prints the single line `__RESULT__:<total>/<total>` with `passed = total`
after attempting the cases in order, and if some case is the first to raise
or fail the equivalence check, the run aborts at that case's index with no
marker printed and no later case attempted (the attempted indices are
exactly `0..i`). -/
theorem fun_driver_fail_fast (fn : List PyVal → Option PyVal) (cs : List (PyVal × PyVal)) :
    ((∀ c ∈ cs, funCasePasses fn c = true) →
      runFunHarness fn cs = (.ok (cs.length, cs.length), List.range cs.length) ∧
      funHarnessOutput (runFunHarness fn cs) =
        some ("__RESULT__:" ++ toString cs.length ++ "/" ++ toString cs.length)) ∧
    (∀ pre c post, cs = pre ++ c :: post →
      (∀ x ∈ pre, funCasePasses fn x = true) → funCasePasses fn c = false →
      runFunHarness fn cs = (.error pre.length, List.range (pre.length + 1)) ∧
      funHarnessOutput (runFunHarness fn cs) = none) := by
  constructor
  · intro h
    have hrun := funHarnessGo_all_pass fn cs 0 0 0 h
    have hmain : runFunHarness fn cs = (.ok (cs.length, cs.length), List.range cs.length) := by
      rw [runFunHarness, hrun]
      simp [List.range_eq_range']
    refine ⟨hmain, ?_⟩
    rw [hmain]
    rfl
  · intro pre c post hcs hpre hc
    subst hcs
    have hrun := funHarnessGo_first_fail fn pre c post 0 0 0 hpre hc
    have hmain : runFunHarness fn (pre ++ c :: post) =
        (.error pre.length, List.range (pre.length + 1)) := by
      rw [runFunHarness, hrun]
      simp [List.range_eq_range']
    refine ⟨hmain, ?_⟩
    rw [hmain]
    rfl

/-- Claim C7 witness: a concrete run in which the single case passes, and a
concrete two-case run in which the second case fails, aborting at index 1
with only cases 0 and 1 attempted. -/
theorem fun_driver_fail_fast_witness :
    runFunHarness (fun argv => some (.list argv)) [(.list [.num 1], .list [.num 1])] =
      (.ok (1, 1), List.range 1) ∧
    runFunHarness (fun argv => some (.list argv))
      [(.list [.num 1], .list [.num 1]), (.list [.num 2], .pyNone)] =
      (.error 1, List.range 2) := by
  constructor
  · exact ((fun_driver_fail_fast _ _).1 (by decide)).1
  · exact ((fun_driver_fail_fast _ _).2 [(.list [.num 1], .list [.num 1])]
      (.list [.num 2], .pyNone) [] rfl (by decide) (by decide)).1

/-- Claim C8 counterexample: `results_equivalent` is not reflexive on every
floating-point value — `float('nan')` compares unequal to itself under both
the direct equality rule and the numeric tolerance rule, so
`results_equivalent(nan, nan)` is `False`. -/
theorem reflexivity_nan_counterexample : results_equivalent .nan .nan = false := by decide

/-- Claim C8 (amended): `results_equivalent(v, v)` is true for every
well-formed value containing no `nan` — the direct equality rule already
accepts such a pair — while a value containing `nan` at top level is a
counterexample to unrestricted reflexivity. -/
theorem reflexivity_nanfree (v : PyVal) (hnan : nanFreeB v = true) (hwf : pyWF v = true) :
    results_equivalent v v = true :=
  re_of_pyEq (pyEq_refl v hnan hwf)

/-- Claim C8 witness: reflexivity evaluated at a concrete nested value
covering numbers, strings, dicts and sets. -/
theorem reflexivity_nanfree_witness :
    results_equivalent (.list [.num 3, .str "a", .dict [("k", .set [.num 1])]])
      (.list [.num 3, .str "a", .dict [("k", .set [.num 1])]]) = true :=
  reflexivity_nanfree _ (by decide) (by decide)

/-- Claim C10: the equivalence relation is symmetric — for every pair of
well-formed values (in particular every pair of JSON-derived values, whose
dicts always have distinct keys), the relation gives the same verdict in
both argument orders. -/
theorem results_equivalent_symmetric (a b : PyVal) (ha : pyWF a = true) (hb : pyWF b = true) :
    results_equivalent a b = results_equivalent b a :=
  results_equivalent_symm a ha b hb

/-- Claim C10 witness: symmetry evaluated at a concrete pair of dicts with
differing entry orders. -/
theorem results_equivalent_symmetric_witness :
    results_equivalent (.dict [("a", .num 1), ("b", .num 2)])
        (.dict [("b", .num 2), ("a", .num 1)]) =
      results_equivalent (.dict [("b", .num 2), ("a", .num 1)])
        (.dict [("a", .num 1), ("b", .num 2)]) :=
  results_equivalent_symmetric _ _ (by decide) (by decide)
